import Mathlib

/-!
Verification of the cost-attribution, identity-resolution, deduplication and
temporal-bucketing logic of `devops-pr-report.py` and `time-report.py`.

Modelling conventions of this shallow embedding:
* Money amounts are `ℚ` (Python float arithmetic abstracted to exact rationals).
* Timestamps are UTC epoch seconds as `ℕ`; the calendar-day key that the
  scripts derive with their day-format calls is the day number `t / 86400`.
* Key labels handled by `extract_user_from_keyname` are lists of Unicode code
  points (`List ℕ`); `str.lower` is modelled as the ASCII lowering map.
* An absent JSON field is `none`; `dict.get(k, default)` is `Option.getD`.
-/

/-- Pricing entry of `_MODEL_PRICING`: per-million-token USD rates for plain
input, cache read, cache write and output tokens. -/
structure Pricing where
  input_per_M : ℚ
  cache_read_per_M : ℚ
  cache_write_per_M : ℚ
  output_per_M : ℚ
deriving DecidableEq

/-- `_MODEL_PRICING`: the ordered model-family pricing table, `_default`
entry included (15.00 = 15, 1.50 = 3/2, 18.75 = 75/4, 0.30 = 3/10,
3.75 = 15/4, 0.80 = 4/5, 0.08 = 2/25). -/
def _MODEL_PRICING : List (String × Pricing) :=
  [ ("claude-opus-4",   ⟨15, 3/2, 75/4, 75⟩),
    ("claude-sonnet-4", ⟨3, 3/10, 15/4, 15⟩),
    ("claude-haiku-4",  ⟨4/5, 2/25, 1, 4⟩),
    ("_default",        ⟨3, 3/10, 15/4, 15⟩) ]

/-- ASCII model of `str.lower` on a `String` (model names are ASCII). -/
def lowerString (s : String) : String := ⟨s.data.map Char.toLower⟩

/-- The family entry selected by the lookup loop of `_get_pricing`: the first
table entry other than `_default` whose key is a `startswith`-match of the
lower-cased model name; `none` means the `_default` fallback fires. -/
def matchedFamily (model : String) : Option String :=
  (_MODEL_PRICING.find?
    (fun e => e.1 != "_default" && e.1.data.isPrefixOf (lowerString model).data)).map
    (fun e => e.1)

/-- `_get_pricing`: first matching family wins, else the `_default` entry. -/
def get_pricing (model : String) : Pricing :=
  match _MODEL_PRICING.find?
      (fun e => e.1 != "_default" && e.1.data.isPrefixOf (lowerString model).data) with
  | some e => e.2
  | none => (_MODEL_PRICING.lookup "_default").getD ⟨3, 3/10, 15/4, 15⟩

/-- The `cache_creation` sub-object of a usage result. -/
structure CacheCreation where
  ephemeral_5m_input_tokens : Option ℕ
  ephemeral_1h_input_tokens : Option ℕ
deriving DecidableEq

/-- One usage-report result record; `none` models an absent field. -/
structure UsageResult where
  model : Option String
  api_key_id : Option String
  uncached_input_tokens : Option ℕ
  cache_read_input_tokens : Option ℕ
  output_tokens : Option ℕ
  cache_creation : Option CacheCreation
deriving DecidableEq

/-- `_calc_cost`: each token count divided by 1,000,000 and multiplied by the
per-million rate of the model family; missing fields count as zero. -/
def calc_cost (r : UsageResult) : ℚ :=
  let p := get_pricing (r.model.getD "")
  let uncached_input : ℕ := r.uncached_input_tokens.getD 0
  let cache_read : ℕ := r.cache_read_input_tokens.getD 0
  let output : ℕ := r.output_tokens.getD 0
  let cc := r.cache_creation.getD ⟨none, none⟩
  let cache_write : ℕ :=
    cc.ephemeral_5m_input_tokens.getD 0 + cc.ephemeral_1h_input_tokens.getD 0
  (uncached_input : ℚ) * p.input_per_M / 1000000
    + (cache_read : ℚ) * p.cache_read_per_M / 1000000
    + (cache_write : ℚ) * p.cache_write_per_M / 1000000
    + (output : ℚ) * p.output_per_M / 1000000

/-! ### Identity resolver (`extract_user_from_keyname`) -/

/-- Code points of a string. -/
def codes (s : String) : List ℕ := s.data.map Char.toNat

/-- ASCII model of `str.lower` on one code point. -/
def lowerCode (c : ℕ) : ℕ := if 65 ≤ c ∧ c ≤ 90 then c + 32 else c

/-- The character class `[a-z]`. -/
def isLowerAZ (c : ℕ) : Bool := 97 ≤ c && c ≤ 122

/-- The ASCII whitespace stripped by `str.strip`. -/
def isStripWS (c : ℕ) : Bool :=
  c == 32 || c == 9 || c == 10 || c == 13 || c == 11 || c == 12

/-- `str.strip`: drop leading and trailing whitespace. -/
def stripCodes (l : List ℕ) : List ℕ :=
  ((l.dropWhile isStripWS).reverse.dropWhile isStripWS).reverse

/-- The fixed label head `"claude_code_key_"` of the first pattern. -/
def CLAUDE_KEY_HEAD : List ℕ := codes "claude_code_key_"

/-- `re.match(r"claude_code_key_([a-z]+)_", s)`: the anchored pattern matches
iff the string starts with the fixed head followed by a nonempty maximal
run of `[a-z]` whose next character is an underscore (code 95); since `[a-z]`
excludes the underscore, greedy matching with backtracking selects exactly that
maximal run as group 1. -/
def matchClaudeKey (l : List ℕ) : Option (List ℕ) :=
  if l.take CLAUDE_KEY_HEAD.length = CLAUDE_KEY_HEAD then
    let g := (l.drop CLAUDE_KEY_HEAD.length).takeWhile isLowerAZ
    if g ≠ [] ∧ ((l.drop CLAUDE_KEY_HEAD.length).drop g.length).head? = some 95 then
      some g
    else none
  else none

/-- `re.match(r"([a-z]{2,6})[-_]", s)`: the anchored pattern matches iff the
maximal leading `[a-z]` run has length 2..6 and the next character is a hyphen
(45) or underscore (95); backtracking over `{2,6}` cannot help because every
shorter candidate is followed by a letter. Group 1 is the run. -/
def matchShortSep (l : List ℕ) : Option (List ℕ) :=
  let run := l.takeWhile isLowerAZ
  if 2 ≤ run.length ∧ run.length ≤ 6 ∧
      ((l.drop run.length).head? = some 45 ∨ (l.drop run.length).head? = some 95) then
    some run
  else none

/-- `extract_user_from_keyname`: lower-case and strip the label, then apply the
ordered first-match-wins cascade — the `claude_code_key_` pattern, the
`{user}[-_]...` pattern, the whole-label `^[a-z]{2,6}$` check, and finally the
first-10-characters fallback. -/
def extract_user_from_keyname (name : List ℕ) : List ℕ :=
  let name_lower := stripCodes (name.map lowerCode)
  match matchClaudeKey name_lower with
  | some g => g
  | none =>
    match matchShortSep name_lower with
    | some g => g
    | none =>
      if name_lower.all isLowerAZ ∧ 2 ≤ name_lower.length ∧ name_lower.length ≤ 6 then
        name_lower
      else
        name_lower.take 10

/-! ### Consumption chart aggregation (`build_consumption_chart`) -/

/-- One entry of the `people` mapping built by `map_keys_to_people`. -/
structure Person where
  display_name : String
  key_ids : List String
  email : Option String
deriving DecidableEq

/-- One usage-report daily bucket; `starting_at_day` is the day number of the
`starting_at[:10]` date key. -/
structure Bucket where
  starting_at_day : ℕ
  results : List UsageResult
deriving DecidableEq

/-- One entry of `prs_data` reduced to the fields the chart reads: the parsed
day of the formatted `created` string (`none` when parsing fails) and the
creator email. -/
structure PRData where
  created_day : Option ℕ
  creator_email : String
deriving DecidableEq

/-- The `key_to_person` mapping: api key id to person initials; later `people`
entries overwrite earlier ones, as the dict-building loop does. -/
def key_to_person (people : List (String × Person)) (kid : String) : Option String :=
  people.foldl (fun m ip => if kid ∈ ip.2.key_ids then some ip.1 else m) none

/-- `round(x, 2)`: rounding to whole cents. Python rounds half to even, this
model half up; the two agree everywhere except exact half-cent ties, and no
theorem below depends on tie behaviour. -/
def round2 (q : ℚ) : ℚ := (round (q * 100) : ℤ) / 100

/-- The results charged to day `d`: all bucket results under a `starting_at`
day equal to `d` that survive the `if cost <= 0: continue` guard of the
accumulation loop. -/
def posResultsOn (buckets : List Bucket) (d : ℕ) : List UsageResult :=
  (buckets.filter (fun b => b.starting_at_day == d)).flatMap
    (fun b => b.results.filter (fun r => decide (0 < calc_cost r)))

/-- `all_daily[d]`. -/
def all_daily (buckets : List Bucket) (d : ℕ) : ℚ :=
  ((posResultsOn buckets d).map calc_cost).sum

/-- The person bucket a result lands in: the mapped initials of its api key
id, or the sentinel `"_other"` when the key id is attributed to nobody. -/
def attributedPerson (people : List (String × Person)) (r : UsageResult) : String :=
  (key_to_person people (r.api_key_id.getD "")).getD "_other"

/-- `person_daily[p][d]`. -/
def person_daily (people : List (String × Person)) (buckets : List Bucket)
    (p : String) (d : ℕ) : ℚ :=
  (((posResultsOn buckets d).filter
      (fun r => attributedPerson people r == p)).map calc_cost).sum

/-- `email.split("@")[0].lower()`. -/
def emailLocal (email : String) : String :=
  ⟨(email.data.takeWhile (fun c => c != '@')).map Char.toLower⟩

/-- `pr_daily_person[p][d]`: PRs are keyed to a person by the lower-cased email
local part when that is a key of a non-empty `people` dict, else `"_other"`. -/
def pr_daily_person (people : List (String × Person)) (prs : List PRData)
    (p : String) (d : ℕ) : ℕ :=
  (prs.filter (fun pr =>
    pr.created_day == some d &&
    (let pre := emailLocal pr.creator_email
     (if !people.isEmpty && (people.map Prod.fst).contains pre then pre
      else "_other") == p))).length

/-- `sum(persons_data[p])`: the per-person cost over the day axis, each day
rounded to cents as `cost_arr` is. -/
def personCost (people : List (String × Person)) (buckets : List Bucket)
    (dates : List ℕ) (p : String) : ℚ :=
  (dates.map (fun d => round2 (person_daily people buckets p d))).sum

/-- `sum(persons_pr_data[p])`. -/
def personPRCount (people : List (String × Person)) (prs : List PRData)
    (dates : List ℕ) (p : String) : ℕ :=
  (dates.map (fun d => pr_daily_person people prs p d)).sum

/-- `grand_total = sum(cost_all)`. -/
def grand_total (buckets : List Bucket) (dates : List ℕ) : ℚ :=
  (dates.map (fun d => round2 (all_daily buckets d))).sum

/-- The persons kept in `persons_data` (nonzero cost column or nonzero PR
column); the breakdown table rows iterate exactly these. The two sorting
passes (by key, then by cost descending) only permute the rows and are
irrelevant to every sum proved below, so they are not modelled. -/
def includedPersons (people : List (String × Person)) (buckets : List Bucket)
    (prs : List PRData) (dates : List ℕ) : List String :=
  (people.map Prod.fst).filter
    (fun p => decide (0 < personCost people buckets dates p)
           || decide (0 < personPRCount people prs dates p))

/-- The `% of Total` column: `(cost / grand_total * 100) if grand_total > 0
else 0`. -/
def pctOf (people : List (String × Person)) (buckets : List Bucket)
    (dates : List ℕ) (p : String) : ℚ :=
  if 0 < grand_total buckets dates then
    personCost people buckets dates p / grand_total buckets dates * 100
  else 0

/-- The `Cost/PR` column: `cost / max(1, prs)`. -/
def cost_per_pr (people : List (String × Person)) (buckets : List Bucket)
    (prs : List PRData) (dates : List ℕ) (p : String) : ℚ :=
  personCost people buckets dates p
    / ((max 1 (personPRCount people prs dates p) : ℕ) : ℚ)

/-- The sum of the `% of Total` column over the rendered breakdown rows. -/
def pctSum (people : List (String × Person)) (buckets : List Bucket)
    (prs : List PRData) (dates : List ℕ) : ℚ :=
  ((includedPersons people buckets prs dates).map (pctOf people buckets dates)).sum

/-- The `Cost / PR` headline stat of `generate_html`:
`grand_total / max(1, len(prs_data))`. -/
def overall_cost_per_pr (buckets : List Bucket) (prs : List PRData)
    (dates : List ℕ) : ℚ :=
  grand_total buckets dates / ((max 1 prs.length : ℕ) : ℚ)

/-! ### PR deduplication (`main` of `devops-pr-report.py`) -/

/-- A raw fetched PR record, reduced to the fields the dedup loop can
distinguish. -/
structure RawPR where
  pullRequestId : ℕ
  status : String
deriving DecidableEq

/-- The body of the `seen`-set loop over `all_prs`. -/
def dedupGo (seen : List ℕ) : List RawPR → List RawPR
  | [] => []
  | pr :: rest =>
    if pr.pullRequestId ∈ seen then dedupGo seen rest
    else pr :: dedupGo (pr.pullRequestId :: seen) rest

/-- `unique_prs`: deduplicate the fetched PR list by `pullRequestId`. -/
def dedupPRs (prs : List RawPR) : List RawPR := dedupGo [] prs

/-! ### Time report (`time-report.py`) -/

/-- A PR as read by `get_devops_activity`; timestamps are epoch seconds and
`none` models a missing or unparseable date string. -/
structure TRPullRequest where
  pullRequestId : ℕ
  creationDate : Option ℕ
  closedDate : Option ℕ
deriving DecidableEq

/-- A dated activity event (calendar-day number plus PR id). -/
inductive TimeEvent where
  | pr_created (day : ℕ) (pr_id : ℕ)
  | pr_completed (day : ℕ) (pr_id : ℕ)
deriving DecidableEq

/-- The events one PR contributes in `get_devops_activity` for the requested
range `[s, e]` (bounds in epoch seconds, both inclusive): a creation event
when the creation timestamp is in range, and a completion event when the
closed timestamp is in range and its day key differs from the creation day
key (a missing creation date compares as the empty string, which always
differs). -/
def prEvents (pr : TRPullRequest) (s e : ℕ) : List TimeEvent :=
  (match pr.creationDate with
   | some c =>
     if s ≤ c ∧ c ≤ e then [TimeEvent.pr_created (c / 86400) pr.pullRequestId]
     else []
   | none => []) ++
  (match pr.closedDate with
   | some t =>
     if s ≤ t ∧ t ≤ e then
       (if (match pr.creationDate with
            | some c => decide (t / 86400 ≠ c / 86400)
            | none => true) then
          [TimeEvent.pr_completed (t / 86400) pr.pullRequestId]
        else [])
     else []
   | none => [])

/-- One step of the `while d <= end: print day; d += 1` loop of `format_text`
(also the shape of the `while d <= today` date-axis loop of
`build_consumption_chart`); the fuel argument is the number of remaining
iterations, `e + 1 - s` at the top-level call. -/
def dayAxisGo (s : ℕ) : ℕ → List ℕ
  | 0 => []
  | n + 1 => s :: dayAxisGo (s + 1) n

/-- The printed day axis for the day range `[s, e]`: the loop runs once per
day while `d <= e`, i.e. exactly `e + 1 - s` times (zero times when the range
is inverted). -/
def dayAxis (s e : ℕ) : List ℕ := dayAxisGo s (e + 1 - s)

/-- The date-range selection of `main` in `time-report.py` (day-precision
arguments become UTC midnight; a `--to`/`--date` end lands on 23:59:59 of its
day). No validation of any kind is applied to the resulting pair. -/
def determineRange (dateArg fromArg toArg : Option ℕ) (nowSec : ℕ)
    (daysArg : ℕ) : ℕ × ℕ :=
  match dateArg with
  | some d => (d * 86400, d * 86400 + 86399)
  | none =>
    match fromArg with
    | some f =>
      (f * 86400,
       match toArg with
       | some t => t * 86400 + 86399
       | none => nowSec)
    | none => (nowSec - daysArg * 86400, nowSec)

/-! ### Concrete chart scenarios -/

/-- A person owning the single api key `k1`. -/
def alPerson : Person := ⟨"AL", ["k1"], none⟩

/-- A usage result charged to key `k1`, costing exactly three dollars. -/
def attributedResult : UsageResult :=
  ⟨some "claude-sonnet-4-x", some "k1", some 1000000, none, none, none⟩

/-- A usage result under key `k2`, a key id no person owns. -/
def unmatchedResult : UsageResult :=
  ⟨some "claude-sonnet-4-x", some "k2", some 1000000, none, none, none⟩

/-! ### General list-sum helper lemmas -/

/-- Pointwise sums split. -/
theorem lsum_map_add {α : Type} (l : List α) (f g : α → ℚ) :
    (l.map (fun x => f x + g x)).sum = (l.map f).sum + (l.map g).sum := by
  induction l with
  | nil => simp
  | cons a l ih => simp only [List.map_cons, List.sum_cons, ih]; ring

/-- A constant right factor pulls out of a sum. -/
theorem lsum_map_mul_right {α : Type} (l : List α) (f : α → ℚ) (c : ℚ) :
    (l.map (fun x => f x * c)).sum = (l.map f).sum * c := by
  induction l with
  | nil => simp
  | cons a l ih => simp only [List.map_cons, List.sum_cons, ih]; ring

/-- Sums over two index lists commute. -/
theorem lsum_swap {α β : Type} (A : List α) (B : List β) (F : α → β → ℚ) :
    (A.map (fun a => (B.map (F a)).sum)).sum
      = (B.map (fun b => (A.map (fun a => F a b)).sum)).sum := by
  induction A with
  | nil => simp
  | cons a A ih =>
    simp only [List.map_cons, List.sum_cons, ih, lsum_map_add]

/-- A sum of pointwise-nonnegative values is nonnegative. -/
theorem lsum_nonneg (l : List ℚ) (h : ∀ x ∈ l, 0 ≤ x) : 0 ≤ l.sum := by
  induction l with
  | nil => simp
  | cons a l ih =>
    simp only [List.sum_cons]
    have ha := h a (List.mem_cons_self a l)
    have hl := ih (fun x hx => h x (List.mem_cons_of_mem a hx))
    linarith

/-- Over a list without the key `a`, the indicator sum vanishes. -/
theorem lsum_single_not_mem (keys : List String) (a : String) (c : ℚ)
    (ha : a ∉ keys) :
    (keys.map (fun p => if a == p then c else 0)).sum = 0 := by
  induction keys with
  | nil => simp
  | cons k keys ih =>
    have hak : ¬(a == k) = true := by
      simp only [beq_iff_eq]
      intro h; exact ha (h ▸ List.mem_cons_self k keys)
    simp only [List.map_cons, List.sum_cons, if_neg hak]
    rw [ih (fun h => ha (List.mem_cons_of_mem k h))]
    ring

/-- Over a duplicate-free list containing the key `a`, the indicator sum is
the single hit. -/
theorem lsum_single (keys : List String) (a : String) (c : ℚ)
    (hnd : keys.Nodup) (ha : a ∈ keys) :
    (keys.map (fun p => if a == p then c else 0)).sum = c := by
  induction keys with
  | nil => simp at ha
  | cons k keys ih =>
    rcases List.mem_cons.mp ha with rfl | hmem
    · simp only [List.map_cons, List.sum_cons, beq_self_eq_true, if_pos]
      rw [lsum_single_not_mem keys a c (List.nodup_cons.mp hnd).1]
      ring
    · have hak : ¬(a == k) = true := by
        simp only [beq_iff_eq]
        intro h
        exact (List.nodup_cons.mp hnd).1 (h ▸ hmem)
      simp only [List.map_cons, List.sum_cons, if_neg hak]
      rw [ih (List.nodup_cons.mp hnd).2 hmem]
      ring

/-- Partition of a sum into fibers: when every element maps into a
duplicate-free key list, summing each fiber over the keys recovers the
total. -/
theorem lsum_fiber {α : Type} (keys : List String) (L : List α)
    (f : α → String) (g : α → ℚ) (hnd : keys.Nodup)
    (hf : ∀ r ∈ L, f r ∈ keys) :
    (keys.map (fun p => ((L.filter (fun r => f r == p)).map g).sum)).sum
      = (L.map g).sum := by
  induction L with
  | nil => simp
  | cons a L ih =>
    have step : ∀ p : String,
        (((a :: L).filter (fun r => f r == p)).map g).sum
          = (if f a == p then g a else 0)
            + ((L.filter (fun r => f r == p)).map g).sum := by
      intro p
      by_cases h : (f a == p) = true
      · simp [List.filter_cons, h]
      · simp [List.filter_cons, h]
    have hfa : f a ∈ keys := hf a (List.mem_cons_self a L)
    have hfL : ∀ r ∈ L, f r ∈ keys := fun r hr => hf r (List.mem_cons_of_mem a hr)
    calc (keys.map (fun p => (((a :: L).filter (fun r => f r == p)).map g).sum)).sum
        = (keys.map (fun p => (if f a == p then g a else 0)
            + ((L.filter (fun r => f r == p)).map g).sum)).sum := by
          exact congrArg List.sum (List.map_congr_left (fun p _ => step p))
      _ = (keys.map (fun p => if f a == p then g a else 0)).sum
            + (keys.map (fun p => ((L.filter (fun r => f r == p)).map g).sum)).sum :=
          lsum_map_add keys _ _
      _ = g a + (L.map g).sum := by rw [lsum_single keys (f a) (g a) hnd hfa, ih hfL]
      _ = ((a :: L).map g).sum := by simp

/-- Dropping list elements on which the summand vanishes does not change
the sum. -/
theorem lsum_filter_of_zero (l : List String) (q : String → Bool) (F : String → ℚ)
    (h : ∀ p ∈ l, q p = false → F p = 0) :
    ((l.filter q).map F).sum = (l.map F).sum := by
  induction l with
  | nil => simp
  | cons a l ih =>
    have hl : ∀ p ∈ l, q p = false → F p = 0 :=
      fun p hp => h p (List.mem_cons_of_mem a hp)
    by_cases hq : q a = true
    · simp only [List.filter_cons, hq, if_pos, List.map_cons, List.sum_cons, ih hl]
    · have hz : F a = 0 := h a (List.mem_cons_self a l) (by simpa using hq)
      simp [List.filter_cons, hq, ih hl, hz]

/-! ### Day-axis lemmas -/

/-- The fuel-driven day loop emits exactly its fuel count of days. -/
theorem dayAxisGo_length (n : ℕ) : ∀ s, (dayAxisGo s n).length = n := by
  induction n with
  | zero => intro s; rfl
  | succ n ih => intro s; simp [dayAxisGo, ih]

/-- The day loop is an arithmetic enumeration. -/
theorem dayAxisGo_eq_range (n : ℕ) : ∀ s,
    dayAxisGo s n = (List.range n).map (fun i => s + i) := by
  induction n with
  | zero => intro s; rfl
  | succ n ih =>
    intro s
    rw [dayAxisGo, ih (s + 1), List.range_succ_eq_map]
    simp only [List.map_cons, List.map_map, Nat.add_zero]
    refine congrArg (s :: ·) ?_
    refine List.map_congr_left ?_
    intro i _
    simp [Function.comp]
    omega
/-! ### Deduplication lemmas -/

/-- Ids surviving `dedupGo` are the input ids outside `seen`. -/
theorem dedupGo_mem_ids (l : List RawPR) : ∀ (seen : List ℕ) (i : ℕ),
    i ∈ (dedupGo seen l).map RawPR.pullRequestId
      ↔ (i ∈ l.map RawPR.pullRequestId ∧ i ∉ seen) := by
  induction l with
  | nil => intro seen i; simp [dedupGo]
  | cons pr rest ih =>
    intro seen i
    by_cases hmem : pr.pullRequestId ∈ seen
    · rw [dedupGo, if_pos hmem, ih]
      simp only [List.map_cons, List.mem_cons]
      constructor
      · rintro ⟨h1, h2⟩; exact ⟨Or.inr h1, h2⟩
      · rintro ⟨h1 | h1, h2⟩
        · exact absurd (h1 ▸ hmem) h2
        · exact ⟨h1, h2⟩
    · rw [dedupGo, if_neg hmem]
      simp only [List.map_cons, List.mem_cons, ih, List.mem_cons]
      constructor
      · rintro (rfl | ⟨h1, h2⟩)
        · exact ⟨Or.inl rfl, hmem⟩
        · exact ⟨Or.inr h1, fun hs => h2 (Or.inr hs)⟩
      · rintro ⟨rfl | h1, h2⟩
        · exact Or.inl rfl
        · by_cases he : i = pr.pullRequestId
          · exact Or.inl he
          · exact Or.inr ⟨h1, fun hs => hs.elim he h2⟩

/-- `dedupGo` emits each id at most once. -/
theorem dedupGo_nodup (l : List RawPR) : ∀ seen : List ℕ,
    ((dedupGo seen l).map RawPR.pullRequestId).Nodup := by
  induction l with
  | nil => intro seen; simp [dedupGo]
  | cons pr rest ih =>
    intro seen
    by_cases hmem : pr.pullRequestId ∈ seen
    · rw [dedupGo, if_pos hmem]; exact ih seen
    · rw [dedupGo, if_neg hmem]
      simp only [List.map_cons, List.nodup_cons]
      refine ⟨fun hc => ?_, ih _⟩
      have := (dedupGo_mem_ids rest _ _).mp hc
      exact this.2 (List.mem_cons_self _ _)

/-- A record kept by `dedupGo` is the first occurrence of its id. -/
theorem dedupGo_first (l : List RawPR) : ∀ (seen : List ℕ) (r : RawPR),
    r ∈ dedupGo seen l →
    r.pullRequestId ∉ seen
      ∧ l.find? (fun p => p.pullRequestId == r.pullRequestId) = some r := by
  induction l with
  | nil => intro seen r hr; simp [dedupGo] at hr
  | cons pr rest ih =>
    intro seen r hr
    by_cases hmem : pr.pullRequestId ∈ seen
    · rw [dedupGo, if_pos hmem] at hr
      obtain ⟨hns, hfind⟩ := ih seen r hr
      have hne : ¬(pr.pullRequestId == r.pullRequestId) = true := by
        simp only [beq_iff_eq]
        intro he; exact hns (he ▸ hmem)
      have hskip : List.find? (fun p => p.pullRequestId == r.pullRequestId) (pr :: rest)
          = List.find? (fun p => p.pullRequestId == r.pullRequestId) rest :=
        List.find?_cons_of_neg rest hne
      exact ⟨hns, by rw [hskip, hfind]⟩
    · rw [dedupGo, if_neg hmem] at hr
      rcases List.mem_cons.mp hr with rfl | hr2
      · refine ⟨hmem, ?_⟩
        have hhit : List.find? (fun p => p.pullRequestId == r.pullRequestId) (r :: rest)
            = some r :=
          List.find?_cons_of_pos rest (by simp)
        exact hhit
      · obtain ⟨hns, hfind⟩ := ih _ r hr2
        have hne1 : r.pullRequestId ≠ pr.pullRequestId :=
          fun he => hns (by simp [he])
        have hns2 : r.pullRequestId ∉ seen :=
          fun hs => hns (List.mem_cons_of_mem _ hs)
        refine ⟨hns2, ?_⟩
        have hne : ¬(pr.pullRequestId == r.pullRequestId) = true := by
          simp only [beq_iff_eq]
          exact fun he => hne1 he.symm
        have hskip : List.find? (fun p => p.pullRequestId == r.pullRequestId) (pr :: rest)
            = List.find? (fun p => p.pullRequestId == r.pullRequestId) rest :=
          List.find?_cons_of_neg rest hne
        rw [hskip, hfind]

/-! ### Attribution lemmas -/

/-- The overwrite fold behind `key_to_person` only ever produces its initial
value or a key of the processed list. -/
theorem key_to_person_foldl (kid : String) : ∀ (l : List (String × Person))
    (init : Option String) (i : String),
    l.foldl (fun m ip => if kid ∈ ip.2.key_ids then some ip.1 else m) init = some i →
    init = some i ∨ i ∈ l.map Prod.fst := by
  intro l
  induction l with
  | nil => intro init i h; exact Or.inl h
  | cons a l ih =>
    intro init i h
    rw [List.foldl_cons] at h
    rcases ih _ i h with hstep | hmem
    · by_cases hk : kid ∈ a.2.key_ids
      · rw [if_pos hk] at hstep
        refine Or.inr ?_
        simp only [List.map_cons, List.mem_cons]
        exact Or.inl (by injection hstep with h1; exact h1.symm)
      · rw [if_neg hk] at hstep
        exact Or.inl hstep
    · exact Or.inr (List.mem_cons_of_mem _ hmem)

/-- A successful `key_to_person` lookup lands on a person of the mapping. -/
theorem key_to_person_mem (people : List (String × Person)) (kid : String)
    (i : String) (h : key_to_person people kid = some i) :
    i ∈ people.map Prod.fst := by
  rcases key_to_person_foldl kid people none i h with habs | hmem
  · simp at habs
  · exact hmem

/-- Membership in the positively-charged result list of a day. -/
theorem mem_posResultsOn (buckets : List Bucket) (d : ℕ) (r : UsageResult)
    (h : r ∈ posResultsOn buckets d) :
    (∃ b ∈ buckets, r ∈ b.results) ∧ 0 < calc_cost r := by
  unfold posResultsOn at h
  rw [List.mem_flatMap] at h
  obtain ⟨b, hb, hr⟩ := h
  rw [List.mem_filter] at hb hr
  refine ⟨⟨b, hb.1, hr.1⟩, ?_⟩
  exact of_decide_eq_true hr.2

/-! ### Pricing lemmas -/

/-- `_get_pricing` only ever returns a tuple of the table. -/
theorem get_pricing_cases (m : String) :
    get_pricing m = ⟨15, 3/2, 75/4, 75⟩ ∨ get_pricing m = ⟨3, 3/10, 15/4, 15⟩
      ∨ get_pricing m = ⟨4/5, 2/25, 1, 4⟩ := by
  unfold get_pricing
  rcases hf : _MODEL_PRICING.find?
      (fun e => e.1 != "_default" && e.1.data.isPrefixOf (lowerString m).data)
    with _ | e
  · rw [hf]
    right; left; rfl
  · rw [hf]
    have hmem := List.mem_of_find?_eq_some hf
    have hp := List.find?_some hf
    simp only [_MODEL_PRICING, List.mem_cons, List.not_mem_nil, or_false] at hmem
    rcases hmem with rfl | rfl | rfl | rfl
    · left; rfl
    · right; left; rfl
    · right; right; rfl
    · simp at hp

/-- All four rates of every pricing tuple are nonnegative. -/
theorem get_pricing_nonneg (m : String) :
    0 ≤ (get_pricing m).input_per_M ∧ 0 ≤ (get_pricing m).cache_read_per_M
      ∧ 0 ≤ (get_pricing m).cache_write_per_M ∧ 0 ≤ (get_pricing m).output_per_M := by
  rcases get_pricing_cases m with h | h | h <;> rw [h] <;> norm_num


/-- C9: for every valid day range the printed axis has exactly
`(end - start) + 1` entries, its `i`-th entry is `start + i` (hence the days
are consecutive calendar days with no gaps), and it has no duplicates. The
same loop shape produces the chart date axis of `build_consumption_chart`. -/
theorem C9_day_axis_dense (s e : ℕ) (h : s ≤ e) :
    (dayAxis s e).length = (e - s) + 1
    ∧ (∀ i, ∀ hi : i < (dayAxis s e).length, (dayAxis s e).get ⟨i, hi⟩ = s + i)
    ∧ (dayAxis s e).Nodup := by
  have hn : e + 1 - s = (e - s) + 1 := by omega
  have hr : dayAxis s e = (List.range ((e - s) + 1)).map (fun i => s + i) := by
    rw [dayAxis, hn, dayAxisGo_eq_range]
  refine ⟨?_, ?_, ?_⟩
  · rw [hr]; simp
  · intro i hi
    simp [hr, List.get_eq_getElem]
  · rw [hr]
    refine List.Nodup.map ?_ (List.nodup_range _)
    intro a b hab
    exact Nat.add_left_cancel hab

/-- C9 witness: the concrete three-day range. -/
theorem C9_day_axis_dense_witness :
    100 ≤ 102 ∧ (dayAxis 100 102).length = (102 - 100) + 1 :=
  ⟨by decide, (C9_day_axis_dense 100 102 (by decide)).1⟩

/-- C4 counterexample: with `--from 20489 --to 20487` (days, i.e.
2026-02-05 to 2026-02-03), `main` performs no validation: the range selection
returns the inverted pair unchanged, the day axis printed by `format_text` is
empty, and a PR created inside the `--from` day contributes no event — the
run proceeds silently instead of aborting with an input-validation error. -/
theorem C4_counterexample :
    determineRange none (some 20489) (some 20487) 1771200000 14
      = (1770249600, 1770163199)
    ∧ dayAxis 20489 20487 = []
    ∧ prEvents ⟨7, some 1770080400, some 1770253200⟩ 1770249600 1770163199 = [] :=
  ⟨rfl, rfl, rfl⟩

/-- C4 (amended): an inverted range (`rangeStart > rangeEnd`) is not rejected
and not reordered: the range selection passes the inverted endpoints through
unchanged, the fetch proceeds, every per-PR range test fails (no events), and
the printed day axis is empty. -/
theorem C4_inverted_range_silent (f t nowSec daysArg : ℕ) (pr : TRPullRequest)
    (h : t < f) :
    determineRange none (some f) (some t) nowSec daysArg
      = (f * 86400, t * 86400 + 86399)
    ∧ dayAxis f t = []
    ∧ prEvents pr (f * 86400) (t * 86400 + 86399) = [] := by
  refine ⟨rfl, ?_, ?_⟩
  · rw [dayAxis]
    have hz : t + 1 - f = 0 := by omega
    rw [hz]; rfl
  · have hcond : ∀ x : ℕ, ¬(f * 86400 ≤ x ∧ x ≤ t * 86400 + 86399) := by
      intro x hx
      omega
    obtain ⟨pid, cd, td⟩ := pr
    cases cd <;> cases td <;> simp [prEvents, hcond]

/-- C4 witness: the amended behaviour at the concrete inverted range. -/
theorem C4_inverted_range_silent_witness :
    20487 < 20489
    ∧ dayAxis 20489 20487 = []
    ∧ prEvents ⟨7, some 1770080400, some 1770253200⟩ (20489 * 86400)
        (20487 * 86400 + 86399) = [] :=
  ⟨by decide,
   (C4_inverted_range_silent 20489 20487 1771200000 14
      ⟨7, some 1770080400, some 1770253200⟩ (by decide)).2.1,
   (C4_inverted_range_silent 20489 20487 1771200000 14
      ⟨7, some 1770080400, some 1770253200⟩ (by decide)).2.2⟩

/-- C8: for a PR with both timestamps present, a completion event is emitted
iff the closed timestamp is inside the requested range and its calendar day
differs from the creation day; concretely, a PR created 2026-02-03 01:00 UTC
(day 20487) and completed 2026-02-05 01:00 UTC (day 20489) inside the range
yields a created event on day 20487 and a distinct completed event on day
20489, neither merged nor deduplicated. -/
theorem C8_completion_iff (pid c t s e : ℕ) :
    (TimeEvent.pr_completed (t / 86400) pid ∈ prEvents ⟨pid, some c, some t⟩ s e
      ↔ (s ≤ t ∧ t ≤ e ∧ t / 86400 ≠ c / 86400))
    ∧ prEvents ⟨7, some 1770080400, some 1770253200⟩ 1769990400 1771200000
        = [TimeEvent.pr_created 20487 7, TimeEvent.pr_completed 20489 7] := by
  refine ⟨?_, rfl⟩
  simp only [prEvents, List.mem_append]
  constructor
  · rintro (h1 | h2)
    · split_ifs at h1 <;> simp at h1
    · split_ifs at h2 with hr hd
      · simp only [List.mem_singleton] at h2
        exact ⟨hr.1, hr.2, of_decide_eq_true hd⟩
      · simp at h2
      · simp at h2
  · rintro ⟨h1, h2, h3⟩
    right
    rw [if_pos ⟨h1, h2⟩, if_pos (decide_eq_true h3)]
    simp

/-- C2 counterexample: when the same PR id arrives first as `active` and
later as `completed`, the dedup loop keeps the first-seen record — the
last-seen record is not in the output, refuting last-seen-wins selection. -/
theorem C2_counterexample :
    dedupPRs [⟨1, "active"⟩, ⟨1, "completed"⟩] = [⟨1, "active"⟩]
    ∧ (⟨1, "completed"⟩ : RawPR) ∉ dedupPRs [⟨1, "active"⟩, ⟨1, "completed"⟩] := by
  constructor <;> decide

/-- C2 (amended): the dedup pass keyed on PR id keeps exactly one record per
unique id — an id is in the output iff it is in the input, output ids carry
no duplicates — and for each id the record that wins is the FIRST-seen
occurrence in input order (not the last-seen one). -/
theorem C2_dedup_first_wins (prs : List RawPR) :
    ((dedupPRs prs).map RawPR.pullRequestId).Nodup
    ∧ (∀ i, i ∈ prs.map RawPR.pullRequestId
          ↔ i ∈ (dedupPRs prs).map RawPR.pullRequestId)
    ∧ (∀ r, r ∈ dedupPRs prs →
        prs.find? (fun p => p.pullRequestId == r.pullRequestId) = some r) := by
  refine ⟨dedupGo_nodup prs [], ?_, ?_⟩
  · intro i
    rw [dedupPRs, dedupGo_mem_ids]
    simp
  · intro r hr
    exact (dedupGo_first prs [] r hr).2

/-- C2 witness: the amended selection applied at the duplicated input. -/
theorem C2_dedup_first_wins_witness :
    ((dedupPRs [⟨1, "active"⟩, ⟨1, "completed"⟩]).map RawPR.pullRequestId).Nodup
    ∧ ([⟨1, "active"⟩, ⟨1, "completed"⟩] : List RawPR).find?
        (fun p => p.pullRequestId == (⟨1, "active"⟩ : RawPR).pullRequestId)
      = some ⟨1, "active"⟩ :=
  ⟨(C2_dedup_first_wins [⟨1, "active"⟩, ⟨1, "completed"⟩]).1,
   (C2_dedup_first_wins [⟨1, "active"⟩, ⟨1, "completed"⟩]).2.2 ⟨1, "active"⟩ (by decide)⟩

/-- C5: the initials extraction is a deterministic pure function applying the
four patterns first-match-wins (visible in the cascade structure of
`extract_user_from_keyname`), and on the spec inputs it yields
alice / bob / davem / xx. -/
theorem C5_extract_examples :
    extract_user_from_keyname (codes "claude_code_key_alice_7f3a") = codes "alice"
    ∧ extract_user_from_keyname (codes "bob-key") = codes "bob"
    ∧ extract_user_from_keyname (codes "DaveM") = codes "davem"
    ∧ extract_user_from_keyname (codes "xx") = codes "xx"
    ∧ (∀ s t : List ℕ, s = t →
        extract_user_from_keyname s = extract_user_from_keyname t) := by
  refine ⟨by decide, by decide, by decide, by decide, ?_⟩
  intro s t h
  rw [h]

/-- C5 witness: determinism discharged at a concrete label. -/
theorem C5_extract_examples_witness :
    codes "xx" = codes "xx"
    ∧ extract_user_from_keyname (codes "xx") = extract_user_from_keyname (codes "xx") :=
  ⟨rfl, C5_extract_examples.2.2.2.2 (codes "xx") (codes "xx") rfl⟩

/-- C6: one record of model `claude-sonnet-4-x` with exactly one million
uncached input tokens and nothing else costs exactly three dollars, and the
pricing is found by family-prefix match on `claude-sonnet-4` (the `_default`
fallback does not fire). -/
theorem C6_sonnet_million_input :
    calc_cost ⟨some "claude-sonnet-4-x", none, some 1000000, none, none, none⟩ = 3
    ∧ matchedFamily "claude-sonnet-4-x" = some "claude-sonnet-4" := by
  constructor
  · have hp : get_pricing "claude-sonnet-4-x" = ⟨3, 3/10, 15/4, 15⟩ := rfl
    simp only [calc_cost, Option.getD_some, Option.getD_none, hp]
    norm_num
  · rfl

/-- Shared step for C7: a single product term of the cost formula is monotone
in its token count when the rate is nonnegative. -/
theorem cost_term_mono (a b rate : ℚ) (hab : a ≤ b) (hr : 0 ≤ rate) :
    a * rate / 1000000 ≤ b * rate / 1000000 := by
  have h1 : a * rate ≤ b * rate := mul_le_mul_of_nonneg_right hab hr
  have h2 : (0 : ℚ) < 1000000 := by norm_num
  exact (div_le_div_iff_of_pos_right h2).mpr h1

/-- C7: the cost calculator is monotone in each of the five token fields
(holding the model and the other fields fixed), and a record whose token
fields are all zero or missing costs exactly 0. -/
theorem C7_cost_monotone_and_zero :
    (∀ (r : UsageResult) (n m : ℕ), n ≤ m →
        calc_cost { r with uncached_input_tokens := some n }
          ≤ calc_cost { r with uncached_input_tokens := some m })
    ∧ (∀ (r : UsageResult) (n m : ℕ), n ≤ m →
        calc_cost { r with cache_read_input_tokens := some n }
          ≤ calc_cost { r with cache_read_input_tokens := some m })
    ∧ (∀ (r : UsageResult) (n m : ℕ), n ≤ m →
        calc_cost { r with output_tokens := some n }
          ≤ calc_cost { r with output_tokens := some m })
    ∧ (∀ (r : UsageResult) (x : Option ℕ) (n m : ℕ), n ≤ m →
        calc_cost { r with cache_creation := some ⟨some n, x⟩ }
          ≤ calc_cost { r with cache_creation := some ⟨some m, x⟩ })
    ∧ (∀ (r : UsageResult) (x : Option ℕ) (n m : ℕ), n ≤ m →
        calc_cost { r with cache_creation := some ⟨x, some n⟩ }
          ≤ calc_cost { r with cache_creation := some ⟨x, some m⟩ })
    ∧ (∀ r : UsageResult,
        r.uncached_input_tokens.getD 0 = 0 →
        r.cache_read_input_tokens.getD 0 = 0 →
        r.output_tokens.getD 0 = 0 →
        (r.cache_creation.getD ⟨none, none⟩).ephemeral_5m_input_tokens.getD 0 = 0 →
        (r.cache_creation.getD ⟨none, none⟩).ephemeral_1h_input_tokens.getD 0 = 0 →
        calc_cost r = 0) := by
  refine ⟨?_, ?_, ?_, ?_, ?_, ?_⟩
  · intro r n m hnm
    simp only [calc_cost, Option.getD_some]
    have hp := (get_pricing_nonneg (r.model.getD "")).1
    have hc : (n : ℚ) ≤ (m : ℚ) := by exact_mod_cast hnm
    exact add_le_add_right (add_le_add_right (add_le_add_right
      (cost_term_mono _ _ _ hc hp) _) _) _
  · intro r n m hnm
    simp only [calc_cost, Option.getD_some]
    have hp := (get_pricing_nonneg (r.model.getD "")).2.1
    have hc : (n : ℚ) ≤ (m : ℚ) := by exact_mod_cast hnm
    exact add_le_add_right (add_le_add_right (add_le_add_left
      (cost_term_mono _ _ _ hc hp) _) _) _
  · intro r n m hnm
    simp only [calc_cost, Option.getD_some]
    have hp := (get_pricing_nonneg (r.model.getD "")).2.2.2
    have hc : (n : ℚ) ≤ (m : ℚ) := by exact_mod_cast hnm
    exact add_le_add_left (cost_term_mono _ _ _ hc hp) _
  · intro r x n m hnm
    simp only [calc_cost, Option.getD_some]
    have hp := (get_pricing_nonneg (r.model.getD "")).2.2.1
    have hc : ((n + x.getD 0 : ℕ) : ℚ) ≤ ((m + x.getD 0 : ℕ) : ℚ) := by
      exact_mod_cast Nat.add_le_add_right hnm _
    exact add_le_add_right (add_le_add_left
      (cost_term_mono _ _ _ hc hp) _) _
  · intro r x n m hnm
    simp only [calc_cost, Option.getD_some]
    have hp := (get_pricing_nonneg (r.model.getD "")).2.2.1
    have hc : ((x.getD 0 + n : ℕ) : ℚ) ≤ ((x.getD 0 + m : ℕ) : ℚ) := by
      exact_mod_cast Nat.add_le_add_left hnm _
    exact add_le_add_right (add_le_add_left
      (cost_term_mono _ _ _ hc hp) _) _
  · intro r h1 h2 h3 h4 h5
    simp only [calc_cost, h1, h2, h3, h4, h5]
    norm_num

/-- C7 witness: monotonicity and the all-missing record at concrete inputs. -/
theorem C7_cost_monotone_and_zero_witness :
    calc_cost { model := some "claude-sonnet-4-x", api_key_id := none,
                uncached_input_tokens := some 0, cache_read_input_tokens := none,
                output_tokens := none, cache_creation := none }
      ≤ calc_cost { model := some "claude-sonnet-4-x", api_key_id := none,
                    uncached_input_tokens := some 1000000,
                    cache_read_input_tokens := none, output_tokens := none,
                    cache_creation := none }
    ∧ calc_cost ⟨some "claude-opus-4-1", none, none, none, none, none⟩ = 0 :=
  ⟨C7_cost_monotone_and_zero.1
      ⟨some "claude-sonnet-4-x", none, none, none, none, none⟩ 0 1000000
      (by decide),
   C7_cost_monotone_and_zero.2.2.2.2.2
      ⟨some "claude-opus-4-1", none, none, none, none, none⟩ rfl rfl rfl rfl rfl⟩

/-- A successful first-pattern match returns exactly the maximal letter run
after the fixed head. -/
theorem matchClaudeKey_some {l g : List ℕ} (h : matchClaudeKey l = some g) :
    g = (l.drop CLAUDE_KEY_HEAD.length).takeWhile isLowerAZ := by
  simp only [matchClaudeKey] at h
  split_ifs at h with h1 h2
  injection h with h3
  exact h3.symm

/-- A successful second-pattern match returns exactly the maximal leading
letter run. -/
theorem matchShortSep_some {l g : List ℕ} (h : matchShortSep l = some g) :
    g = l.takeWhile isLowerAZ := by
  simp only [matchShortSep] at h
  split_ifs at h with h1
  injection h with h3
  exact h3.symm

/-- Stripping only removes elements. -/
theorem stripCodes_subset (l : List ℕ) (c : ℕ) (hc : c ∈ stripCodes l) :
    c ∈ l := by
  unfold stripCodes at hc
  rw [List.mem_reverse] at hc
  have h1 := (List.dropWhile_sublist isStripWS).subset hc
  rw [List.mem_reverse] at h1
  exact (List.dropWhile_sublist isStripWS).subset h1

/-- The ASCII lowering map never produces an uppercase letter. -/
theorem lowerCode_no_upper (c : ℕ) : ¬(65 ≤ lowerCode c ∧ lowerCode c ≤ 90) := by
  unfold lowerCode
  split_ifs <;> omega

/-- Every branch of the extraction cascade returns a contiguous segment of
the lower-cased stripped label. -/
theorem extract_user_shape (name : List ℕ) :
    ∃ l1 l2, stripCodes (name.map lowerCode)
      = l1 ++ extract_user_from_keyname name ++ l2 := by
  unfold extract_user_from_keyname
  rcases hm : matchClaudeKey (stripCodes (name.map lowerCode)) with _ | g
  · rcases hm2 : matchShortSep (stripCodes (name.map lowerCode)) with _ | g2
    · simp only [hm, hm2]
      split_ifs with h3
      · exact ⟨[], [], by simp⟩
      · refine ⟨[], (stripCodes (name.map lowerCode)).drop 10, ?_⟩
        rw [List.nil_append, List.take_append_drop]
    · simp only [hm, hm2]
      have hg2 : g2 = (stripCodes (name.map lowerCode)).takeWhile isLowerAZ :=
        matchShortSep_some hm2
      refine ⟨[], (stripCodes (name.map lowerCode)).dropWhile isLowerAZ, ?_⟩
      rw [hg2, List.nil_append, List.takeWhile_append_dropWhile]
  · simp only [hm]
    have hg : g = ((stripCodes (name.map lowerCode)).drop
        CLAUDE_KEY_HEAD.length).takeWhile isLowerAZ := matchClaudeKey_some hm
    refine ⟨(stripCodes (name.map lowerCode)).take CLAUDE_KEY_HEAD.length,
      ((stripCodes (name.map lowerCode)).drop CLAUDE_KEY_HEAD.length).dropWhile
        isLowerAZ, ?_⟩
    rw [hg, List.append_assoc, List.takeWhile_append_dropWhile,
      List.take_append_drop]

/-- C10 (amended): the extraction always returns a contiguous substring of
the lower-cased whitespace-stripped input and never contains an uppercase
ASCII letter; being a total Lean function of the input it yields some string
for every input, the empty string included (the "never raises" clause).
The original claim additionally asserted the result carries no surrounding
whitespace, which the 10-character fallback violates. -/
theorem C10_substring_no_upper (name : List ℕ) :
    (∃ l1 l2, stripCodes (name.map lowerCode)
        = l1 ++ extract_user_from_keyname name ++ l2)
    ∧ (∀ c ∈ extract_user_from_keyname name, ¬(65 ≤ c ∧ c ≤ 90)) := by
  refine ⟨extract_user_shape name, ?_⟩
  intro c hc
  obtain ⟨l1, l2, hdec⟩ := extract_user_shape name
  have hmem : c ∈ stripCodes (name.map lowerCode) := by
    rw [hdec, List.mem_append, List.mem_append]
    exact Or.inl (Or.inr hc)
  have hmem2 : c ∈ name.map lowerCode := stripCodes_subset _ c hmem
  obtain ⟨c0, _, rfl⟩ := List.mem_map.mp hmem2
  exact lowerCode_no_upper c0

/-- C10 counterexample: on the label `"abcdefghi j"` the 10-character
fallback returns `"abcdefghi "` — a string ending in the whitespace
code point 32, refuting the no-surrounding-whitespace clause. -/
theorem C10_counterexample :
    extract_user_from_keyname (codes "abcdefghi j") = codes "abcdefghi "
    ∧ (extract_user_from_keyname (codes "abcdefghi j")).getLast? = some 32 := by
  constructor <;> decide

/-- C10 witness: the amended claim discharged at the label `"bob-key"` and,
for the membership hypothesis, at its first character b (code 98). -/
theorem C10_substring_no_upper_witness :
    (∃ l1 l2, stripCodes ((codes "bob-key").map lowerCode)
        = l1 ++ extract_user_from_keyname (codes "bob-key") ++ l2)
    ∧ ¬(65 ≤ 98 ∧ 98 ≤ 90) :=
  ⟨(C10_substring_no_upper (codes "bob-key")).1,
   (C10_substring_no_upper (codes "bob-key")).2 98 (by decide)⟩

/-! ### Concrete chart evaluations -/

/-- The attributed scenario result costs three dollars. -/
theorem calc_cost_attributed : calc_cost attributedResult = 3 := by
  have hp : get_pricing "claude-sonnet-4-x" = ⟨3, 3/10, 15/4, 15⟩ := rfl
  simp only [attributedResult, calc_cost, Option.getD_some, Option.getD_none, hp]
  norm_num

/-- The unattributed scenario result costs three dollars. -/
theorem calc_cost_unmatched : calc_cost unmatchedResult = 3 := by
  have hp : get_pricing "claude-sonnet-4-x" = ⟨3, 3/10, 15/4, 15⟩ := rfl
  simp only [unmatchedResult, calc_cost, Option.getD_some, Option.getD_none, hp]
  norm_num

/-- Day 100 of the attributed scenario charges exactly its one result. -/
theorem posResultsOn_attributed :
    posResultsOn [⟨100, [attributedResult]⟩] 100 = [attributedResult] := by
  have hb : decide (0 < calc_cost attributedResult) = true := by
    rw [calc_cost_attributed]; decide
  simp [posResultsOn, hb]

/-- Day 100 of the unattributed scenario charges exactly its one result. -/
theorem posResultsOn_unmatched :
    posResultsOn [⟨100, [unmatchedResult]⟩] 100 = [unmatchedResult] := by
  have hb : decide (0 < calc_cost unmatchedResult) = true := by
    rw [calc_cost_unmatched]; decide
  simp [posResultsOn, hb]

/-- Grand total of the attributed scenario over the one-day axis. -/
theorem grand_total_attributed :
    grand_total [⟨100, [attributedResult]⟩] [100] = 3 := by
  simp only [grand_total, all_daily, posResultsOn_attributed, List.map_cons,
    List.map_nil, List.sum_cons, List.sum_nil, calc_cost_attributed]
  norm_num [round2, round_eq]

/-- Grand total of the unattributed scenario over the one-day axis. -/
theorem grand_total_unmatched :
    grand_total [⟨100, [unmatchedResult]⟩] [100] = 3 := by
  simp only [grand_total, all_daily, posResultsOn_unmatched, List.map_cons,
    List.map_nil, List.sum_cons, List.sum_nil, calc_cost_unmatched]
  norm_num [round2, round_eq]

/-- The attributed result lands in the `al` bucket. -/
theorem attributedPerson_attributed :
    attributedPerson [("al", alPerson)] attributedResult = "al" := rfl

/-- The unattributed result lands in the `_other` sentinel bucket. -/
theorem attributedPerson_unmatched :
    attributedPerson [("al", alPerson)] unmatchedResult = "_other" := rfl

/-- Daily cost of `al` in the attributed scenario. -/
theorem person_daily_attributed :
    person_daily [("al", alPerson)] [⟨100, [attributedResult]⟩] "al" 100 = 3 := by
  simp [person_daily, posResultsOn_attributed, attributedPerson_attributed,
    calc_cost_attributed]

/-- Cost column of `al` in the attributed scenario. -/
theorem personCost_attributed :
    personCost [("al", alPerson)] [⟨100, [attributedResult]⟩] [100] "al" = 3 := by
  simp only [personCost, List.map_cons, List.map_nil, List.sum_cons,
    List.sum_nil, person_daily_attributed]
  norm_num [round2, round_eq]

/-- Daily cost of the `_other` sentinel in the unattributed scenario: the
unattributed spend is bucketed there in the per-day chart series. -/
theorem person_daily_other_unmatched :
    person_daily [("al", alPerson)] [⟨100, [unmatchedResult]⟩] "_other" 100 = 3 := by
  simp [person_daily, posResultsOn_unmatched, attributedPerson_unmatched,
    calc_cost_unmatched]

/-- Daily cost of `al` in the unattributed scenario is zero. -/
theorem person_daily_al_unmatched :
    person_daily [("al", alPerson)] [⟨100, [unmatchedResult]⟩] "al" 100 = 0 := by
  simp [person_daily, posResultsOn_unmatched, attributedPerson_unmatched]

/-- Cost column of `al` in the unattributed scenario is zero. -/
theorem personCost_al_unmatched :
    personCost [("al", alPerson)] [⟨100, [unmatchedResult]⟩] [100] "al" = 0 := by
  simp only [personCost, List.map_cons, List.map_nil, List.sum_cons,
    List.sum_nil, person_daily_al_unmatched]
  norm_num [round2, round_eq]

/-- With no PR data, every PR column is zero. -/
theorem personPRCount_nil (people : List (String × Person)) (dates : List ℕ)
    (p : String) : personPRCount people [] dates p = 0 := by
  induction dates with
  | nil => rfl
  | cons d dates ih => simp [personPRCount, pr_daily_person] at ih ⊢

/-- In the unattributed scenario no person survives the breakdown filter:
`al` has zero cost and zero PRs, and `_other` is not a key of `people`. -/
theorem includedPersons_unmatched :
    includedPersons [("al", alPerson)] [⟨100, [unmatchedResult]⟩] [] [100] = [] := by
  have hc : decide (0 < personCost [("al", alPerson)]
      [⟨100, [unmatchedResult]⟩] [100] "al") = false := by
    rw [personCost_al_unmatched]; decide
  have hp : decide (0 < personPRCount [("al", alPerson)] ([] : List PRData)
      [100] "al") = false := by
    rw [personPRCount_nil]; decide
  simp [includedPersons, hc, hp]

/-- The rendered percentage column of the unattributed scenario sums to 0. -/
theorem pctSum_unmatched :
    pctSum [("al", alPerson)] [⟨100, [unmatchedResult]⟩] [] [100] = 0 := by
  simp [pctSum, includedPersons_unmatched]

/-- Cost-per-PR of `al` with three dollars of spend and zero PRs. -/
theorem cost_per_pr_attributed_no_prs :
    cost_per_pr [("al", alPerson)] [⟨100, [attributedResult]⟩] [] [100] "al" = 3 := by
  rw [cost_per_pr, personCost_attributed, personPRCount_nil]
  norm_num

/-- C3 counterexample: in the zero-PR case the code reports the full cost,
not 0 — the per-person `Cost/PR` column shows 3 for a three-dollar person
with zero PRs, and the overall `Cost / PR` headline likewise shows 3 for an
empty PR list; only the division by zero itself is avoided via `max(1, ·)`. -/
theorem C3_counterexample :
    cost_per_pr [("al", alPerson)] [⟨100, [attributedResult]⟩] [] [100] "al" = 3
    ∧ overall_cost_per_pr [⟨100, [attributedResult]⟩] [] [100] = 3
    ∧ (3 : ℚ) ≠ 0 := by
  refine ⟨cost_per_pr_attributed_no_prs, ?_, by norm_num⟩
  rw [overall_cost_per_pr, grand_total_attributed]
  norm_num

/-- C3 (amended): the percentage derivation guards the zero-grand-total case
and reports 0 there; the cost-per-PR derivations never divide by zero because
their denominators are clamped to at least 1 — but in the zero-PR case they
report the full cost (person cost, resp. grand total), not 0. -/
theorem C3_zero_denominator_guards (people : List (String × Person))
    (buckets : List Bucket) (prs : List PRData) (dates : List ℕ) (p : String)
    (hgt : ¬ 0 < grand_total buckets dates) :
    pctOf people buckets dates p = 0
    ∧ (((max 1 (personPRCount people prs dates p) : ℕ) : ℚ) ≠ 0)
    ∧ (((max 1 prs.length : ℕ) : ℚ) ≠ 0)
    ∧ (personPRCount people prs dates p = 0 →
        cost_per_pr people buckets prs dates p = personCost people buckets dates p)
    ∧ (prs = [] →
        overall_cost_per_pr buckets prs dates = grand_total buckets dates) := by
  refine ⟨?_, ?_, ?_, ?_, ?_⟩
  · rw [pctOf, if_neg hgt]
  · have h1 : max 1 (personPRCount people prs dates p) ≠ 0 := by omega
    exact_mod_cast h1
  · have h1 : max 1 prs.length ≠ 0 := by omega
    exact_mod_cast h1
  · intro h0
    rw [cost_per_pr, h0]
    norm_num
  · rintro rfl
    rw [overall_cost_per_pr]
    norm_num

/-- C3 witness: the zero-grand-total guard at the empty batch, and the
zero-PR ratio at the three-dollar scenario. -/
theorem C3_zero_denominator_guards_witness :
    (¬ 0 < grand_total [] [])
    ∧ pctOf [("al", alPerson)] [] [] "al" = 0
    ∧ (((max 1 ([] : List PRData).length : ℕ) : ℚ) ≠ 0) :=
  ⟨by norm_num [grand_total],
   (C3_zero_denominator_guards [("al", alPerson)] [] [] [] "al"
      (by norm_num [grand_total])).1,
   (C3_zero_denominator_guards [("al", alPerson)] [] [] [] "al"
      (by norm_num [grand_total])).2.2.1⟩

/-- For each day, the per-person cost series over the people keys partitions
the all-persons daily total, provided every positively-charged result is
attributed to some person of the mapping. -/
theorem person_daily_partition (people : List (String × Person))
    (buckets : List Bucket) (d : ℕ)
    (hnd : (people.map Prod.fst).Nodup)
    (hattr : ∀ b ∈ buckets, ∀ r ∈ b.results, 0 < calc_cost r →
       key_to_person people (r.api_key_id.getD "") ≠ none) :
    ((people.map Prod.fst).map
        (fun p => person_daily people buckets p d)).sum = all_daily buckets d := by
  unfold person_daily all_daily
  refine lsum_fiber (people.map Prod.fst) (posResultsOn buckets d)
    (attributedPerson people) calc_cost hnd ?_
  intro r hr
  obtain ⟨⟨b, hb, hrb⟩, hpos⟩ := mem_posResultsOn buckets d r hr
  have hne := hattr b hb r hrb hpos
  rcases hk : key_to_person people (r.api_key_id.getD "") with _ | i
  · exact absurd hk hne
  · unfold attributedPerson
    rw [hk, Option.getD_some]
    exact key_to_person_mem people _ i hk

/-- C1 counterexample: a non-empty usage batch whose only record is charged
to key `k2`, which no person owns. The three dollars land in the `_other`
per-day series, but `_other` is not a key of `people` and therefore gets no
breakdown row: the rendered breakdown is empty and its percentage column
sums to 0, while the grand total is a positive 3 — nowhere near 100%. -/
theorem C1_counterexample :
    grand_total [⟨100, [unmatchedResult]⟩] [100] = 3
    ∧ person_daily [("al", alPerson)] [⟨100, [unmatchedResult]⟩] "_other" 100 = 3
    ∧ includedPersons [("al", alPerson)] [⟨100, [unmatchedResult]⟩] [] [100] = []
    ∧ pctSum [("al", alPerson)] [⟨100, [unmatchedResult]⟩] [] [100] = 0 :=
  ⟨grand_total_unmatched, person_daily_other_unmatched,
   includedPersons_unmatched, pctSum_unmatched⟩

/-- C1 (amended): for a usage batch with positive grand total, IF every
positively-costed record is attributed to a person of the (duplicate-free)
`people` mapping — so nothing falls to the `_other` sentinel — and the
per-day cent-rounding is exact on every aggregated value, THEN the rendered
per-person percentages sum to exactly 100. (As stated the claim is false:
the `_other` sentinel receives unattributed cost in the per-day series but
is never given a breakdown row, so with unattributed spend the rendered
percentages sum to strictly less than 100; see the counterexample.) -/
theorem C1_pct_sum_amended (people : List (String × Person))
    (buckets : List Bucket) (prs : List PRData) (dates : List ℕ)
    (hnd : (people.map Prod.fst).Nodup)
    (hgt : 0 < grand_total buckets dates)
    (hattr : ∀ b ∈ buckets, ∀ r ∈ b.results, 0 < calc_cost r →
       key_to_person people (r.api_key_id.getD "") ≠ none)
    (hrall : ∀ d ∈ dates, round2 (all_daily buckets d) = all_daily buckets d)
    (hrp : ∀ p ∈ people.map Prod.fst, ∀ d ∈ dates,
       round2 (person_daily people buckets p d) = person_daily people buckets p d) :
    pctSum people buckets prs dates = 100 := by
  have hkeys : ((people.map Prod.fst).map
      (fun p => personCost people buckets dates p)).sum
      = grand_total buckets dates := by
    have h1 : ((people.map Prod.fst).map
        (fun p => personCost people buckets dates p)).sum
        = ((people.map Prod.fst).map (fun p =>
            (dates.map (fun d => person_daily people buckets p d)).sum)).sum := by
      refine congrArg List.sum (List.map_congr_left ?_)
      intro p hp
      unfold personCost
      exact congrArg List.sum (List.map_congr_left (fun d hd => hrp p hp d hd))
    rw [h1, lsum_swap]
    have h2 : (dates.map (fun d => ((people.map Prod.fst).map
        (fun p => person_daily people buckets p d)).sum)).sum
        = (dates.map (fun d => all_daily buckets d)).sum := by
      refine congrArg List.sum (List.map_congr_left ?_)
      intro d _
      exact person_daily_partition people buckets d hnd hattr
    rw [h2]
    unfold grand_total
    exact congrArg List.sum (List.map_congr_left (fun d hd => (hrall d hd).symm))
  have hzero : ∀ p ∈ people.map Prod.fst,
      (decide (0 < personCost people buckets dates p)
        || decide (0 < personPRCount people prs dates p)) = false →
      pctOf people buckets dates p = 0 := by
    intro p hp hq
    have hc : ¬ 0 < personCost people buckets dates p :=
      of_decide_eq_false (Bool.or_eq_false_iff.mp hq).1
    have hge : 0 ≤ personCost people buckets dates p := by
      unfold personCost
      refine lsum_nonneg _ ?_
      intro x hx
      obtain ⟨d, hd, rfl⟩ := List.mem_map.mp hx
      rw [hrp p hp d hd]
      unfold person_daily
      refine lsum_nonneg _ ?_
      intro y hy
      obtain ⟨r, hr, rfl⟩ := List.mem_map.mp hy
      have hmem := List.mem_filter.mp hr
      exact le_of_lt (mem_posResultsOn buckets d r hmem.1).2
    have hc0 : personCost people buckets dates p = 0 :=
      le_antisymm (not_lt.mp hc) hge
    rw [pctOf, if_pos hgt, hc0]
    norm_num
  have hincl : pctSum people buckets prs dates
      = ((people.map Prod.fst).map (fun p => pctOf people buckets dates p)).sum := by
    unfold pctSum includedPersons
    exact lsum_filter_of_zero (people.map Prod.fst) _ _ hzero
  rw [hincl]
  have hpt : ∀ p ∈ people.map Prod.fst,
      pctOf people buckets dates p
        = personCost people buckets dates p * (100 / grand_total buckets dates) := by
    intro p _
    rw [pctOf, if_pos hgt, div_mul_eq_mul_div, mul_div_assoc]
  rw [List.map_congr_left hpt, lsum_map_mul_right, hkeys,
    ← mul_div_assoc, mul_comm (grand_total buckets dates) 100,
    mul_div_assoc, div_self (ne_of_gt hgt), mul_one]

/-- C1 witness: with the three-dollar record attributed to `al` and exact
cent rounding, the single rendered percentage row sums to exactly 100. -/
theorem C1_pct_sum_amended_witness :
    0 < grand_total [⟨100, [attributedResult]⟩] [100]
    ∧ pctSum [("al", alPerson)] [⟨100, [attributedResult]⟩] [] [100] = 100 := by
  have hgt : 0 < grand_total [⟨100, [attributedResult]⟩] [100] := by
    rw [grand_total_attributed]; norm_num
  refine ⟨hgt, ?_⟩
  refine C1_pct_sum_amended [("al", alPerson)] [⟨100, [attributedResult]⟩] [] [100]
    (by simp) hgt ?_ ?_ ?_
  · intro b hb r hr hpos
    simp only [List.mem_singleton] at hb
    subst hb
    simp only [List.mem_singleton] at hr
    subst hr
    decide
  · intro d hd
    simp only [List.mem_singleton] at hd
    subst hd
    have hall : all_daily [⟨100, [attributedResult]⟩] 100 = 3 := by
      simp [all_daily, posResultsOn_attributed, calc_cost_attributed]
    rw [hall]
    norm_num [round2, round_eq]
  · intro p hp d hd
    simp only [List.map_cons, List.map_nil, List.mem_singleton] at hp
    simp only [List.mem_singleton] at hd
    subst hp
    subst hd
    rw [person_daily_attributed]
    norm_num [round2, round_eq]
